import Mathlib

/-!
Shallow embedding of the planning core of the `study-planner` repository
(`src/planner.py`, data model from `src/models.py`), together with proofs of
the specified properties.

Modelling conventions:
* Calendar dates are integers counting days (day `d` spans the half-open
  interval `[d*86400, (d+1)*86400)` in timestamp seconds).  The epoch is
  chosen so that `weekday d = d % 7` with `0 = Monday`, matching Python's
  `date.weekday()` convention `0=Mon .. 6=Sun`.
* Timestamps (`datetime`) are integers counting seconds.  Python datetimes
  have microsecond resolution; second resolution is enough for every claim
  and for the floor-division `total_seconds() // 60` computing minutes.
* Python dictionaries used as accumulators (`Dict[date, int]`,
  `Dict[str, int]`) are modelled as total functions with default value `0`,
  updated pointwise; the source only ever reads them through `.get(k, 0)`
  or at keys known to be present, so the default-0 function is faithful.
  Explicit `in` membership tests of the source are modelled by explicit
  list-membership tests.
* `uuid4()` id generation is modelled by an explicit id supply
  `gen : Nat → String` together with a counter threaded through the
  computation; field `id` of a freshly created task is `gen k` for the
  current counter value `k`.  Nothing else in the source reads these ids.
* Python floats (`est_hours`, priority and risk scores) are modelled as
  exact rationals; `round` is Mathlib's `round` (Python uses
  round-half-to-even on floats, which can differ at exact halves; none of
  the verified claims depends on the rounding mode at halves).
* Python's stable `list.sort(key=..., reverse=...)` is modelled by a stable
  insertion sort `sortStable` with a boolean "goes-no-later-than"
  comparator.
-/

namespace Planner

/-- Pointwise update of a default-0 dictionary, `m[k] = v`. -/
def updFn {α : Type} [DecidableEq α] (m : α → Int) (k : α) (v : Int) : α → Int :=
  fun x => if x = k then v else m x

/-- Stable ordered insert: place `x` before the first element `y` with
`le x y`; among equal elements the inserted one (originally earlier,
see `sortStable`) comes first, matching Python's stable sort. -/
def insertOrdered {α : Type} (le : α → α → Bool) (x : α) : List α → List α
  | [] => [x]
  | y :: ys => if le x y then x :: y :: ys else y :: insertOrdered le x ys

/-- Stable insertion sort with comparator `le` ("may come before"). -/
def sortStable {α : Type} (le : α → α → Bool) : List α → List α
  | [] => []
  | x :: xs => insertOrdered le x (sortStable le xs)

/-- `models.Subject` (pydantic): validation requires `1 ≤ difficulty ≤ 5`
and `est_hours > 0`. -/
structure Subject where
  id : String
  name : String
  deadline : Int
  difficulty : Int
  est_hours : Rat
  notes : String
deriving DecidableEq

/-- `models.Task` (pydantic): validation requires `minutes > 0`. -/
structure Task where
  id : String
  subject_id : String
  subject_name : String
  day : Int
  minutes : Int
  done : Bool
  notes : String
deriving DecidableEq

/-- `models.Event`: start/end timestamps in seconds (source field `end`
is renamed `end_`, `end` being a Lean keyword). -/
structure Event where
  id : String
  title : String
  start : Int
  end_ : Int
deriving DecidableEq

/-- `models.Settings` (pydantic defaults/ranges recorded in `Settings.Valid`). -/
structure Settings where
  minutes_per_day : Int
  rest_days : List Int
  chunk_minutes : Int
  daily_buffer_minutes : Int
  preferred_start_hour : Int
  preferred_end_hour : Int
deriving DecidableEq

/-- The pydantic range constraints on `models.Settings`. -/
def Settings.Valid (s : Settings) : Prop :=
  15 ≤ s.minutes_per_day ∧ s.minutes_per_day ≤ 600 ∧
  0 ≤ s.daily_buffer_minutes ∧ s.daily_buffer_minutes ≤ 180 ∧
  0 ≤ s.preferred_start_hour ∧ s.preferred_start_hour ≤ 23 ∧
  0 ≤ s.preferred_end_hour ∧ s.preferred_end_hour ≤ 23

/-- Python `date.weekday()`: `0 = Monday .. 6 = Sunday` (epoch day 0 is a
Monday). -/
def weekday (d : Int) : Int := d % 7

/-- Midnight timestamp of day `d` (`datetime.combine(d, time.min)`). -/
def dayStart (d : Int) : Int := d * 86400

/-- The dates of a window: `[start_date + i for i in range(num_days)]`. -/
def windowDates (start_date : Int) (num_days : Nat) : List Int :=
  (List.range num_days).map (fun (i : Nat) => start_date + (i : Int))

/-- `overlap_start = max(start, day_start)` for event `ev` and day `d`. -/
def overlapStart (ev : Event) (d : Int) : Int := max ev.start (dayStart d)

/-- `overlap_end = min(end, day_end)` for event `ev` and day `d`. -/
def overlapEnd (ev : Event) (d : Int) : Int := min ev.end_ (dayStart d + 86400)

/-- The body of the `for d in window_dates` loop of
`compute_busy_minutes_by_day` (lines 29–36): add the positive overlap of
`ev` with day `d`, in floor-divided minutes, to `d`'s bucket. -/
def eventDayStep (ev : Event) (busy : Int → Int) (d : Int) : Int → Int :=
  if overlapStart ev d < overlapEnd ev d then
    updFn busy d (busy d + (overlapEnd ev d - overlapStart ev d) / 60)
  else busy

/-- `planner.compute_busy_minutes_by_day`: bucket events into per-day busy
minutes over the window, skipping events with `end <= start`; result is the
dictionary read through `.get(d, 0)`. -/
def compute_busy_minutes_by_day (events : List Event) (start_date : Int)
    (num_days : Nat) : Int → Int :=
  events.foldl
    (fun busy ev =>
      if ev.end_ ≤ ev.start then busy
      else (windowDates start_date num_days).foldl (eventDayStep ev) busy)
    (fun _ => 0)

/-- `planner._days_left`. -/
def _days_left (today deadline : Int) : Int := max 1 (deadline - today)

/-- `planner._priority`: higher = more urgent. -/
def _priority (today : Int) (s : Subject) : Rat :=
  ((s.difficulty : Rat) * 10) / ((_days_left today s.deadline : Int) : Rat)

/-- `planner._available_minutes_for_day`. -/
def _available_minutes_for_day (d : Int) (settings : Settings)
    (busy_by_day : Int → Int) (planned_minutes : Option (Int → Int)) : Int :=
  if weekday d ∈ settings.rest_days then 0
  else
    let busy := busy_by_day d
    let planned := match planned_minutes with
      | none => 0
      | some m => m d
    let base := max 0 (settings.minutes_per_day - busy - settings.daily_buffer_minutes)
    max 0 (base - planned)

/-! ### Week plan generator (`planner.generate_week_plan`, lines 54–121) -/

/-- The 7-day window `[today + timedelta(days=i) for i in range(7)]`. -/
def weekDays (today : Int) : List Int := windowDates today 7

/-- Lines 65–72: per-day base capacity
`max 0 ((0 if rest day else minutes_per_day) - busy - buffer)`. -/
def weekCapacityBase (settings : Settings) (busy_by_day : Int → Int) : Int → Int :=
  fun d =>
    let base := if weekday d ∈ settings.rest_days then 0 else settings.minutes_per_day
    max 0 (base - busy_by_day d - settings.daily_buffer_minutes)

/-- Lines 74–77: reduce capacity by already planned, unfinished tasks in the
window (`if not t.done and t.day in day_capacity`). -/
def weekCapacity (settings : Settings) (today : Int) (existing_tasks : List Task)
    (busy_by_day : Int → Int) : Int → Int :=
  existing_tasks.foldl
    (fun cap t =>
      if ¬t.done ∧ t.day ∈ weekDays today then
        updFn cap t.day (max 0 (cap t.day - t.minutes))
      else cap)
    (weekCapacityBase settings busy_by_day)

/-- Line 80: `targets = {s.id: int(round(s.est_hours * 60)) for s in subjects}`
(duplicate ids: the last subject wins, as in a dict comprehension). -/
def subjectTargets (subjects : List Subject) : String → Int :=
  subjects.foldl (fun m s => updFn m s.id (round (s.est_hours * 60))) (fun _ => 0)

/-- Lines 81–84: minutes already allocated per subject id, counting only
tasks whose `subject_id` is a key (`if t.subject_id in allocated`). -/
def allocatedMinutes (subjects : List Subject) (existing_tasks : List Task) :
    String → Int :=
  existing_tasks.foldl
    (fun m t =>
      if t.subject_id ∈ subjects.map Subject.id then
        updFn m t.subject_id (m t.subject_id + t.minutes)
      else m)
    (fun _ => 0)

/-- Lines 86–87: remaining minutes per subject id.  For ids outside the key
set this gives `max 0 (0 - 0) = 0`, which coincides with the source's
`.get(sid, 0)` default. -/
def remainingInit (subjects : List Subject) (existing_tasks : List Task) :
    String → Int :=
  fun sid =>
    max 0 (subjectTargets subjects sid - allocatedMinutes subjects existing_tasks sid)

/-- Lines 89–90: `chunk = chunk_minutes if chunk_minutes in (25, 45, 60) else 25`
then `chunk = max(10, chunk)`. -/
def effectiveChunk (settings : Settings) : Int :=
  let chunk :=
    if settings.chunk_minutes = 25 ∨ settings.chunk_minutes = 45 ∨
        settings.chunk_minutes = 60 then
      settings.chunk_minutes
    else 25
  max 10 chunk

/-- Line 99 and 103–104: filter subjects with remaining > 0, stable-sort by
priority descending, take the first. -/
def selectSubject (subjects : List Subject) (today : Int)
    (remaining : String → Int) : Option Subject :=
  let candidates := subjects.filter (fun s => 0 < remaining s.id)
  match sortStable
      (fun a b => decide (_priority today b ≤ _priority today a)) candidates with
  | [] => none
  | s :: _ => some s

/-- State threaded through the allocation loops: per-subject remaining
minutes, the id-supply counter, and the tasks created so far. -/
structure AllocState where
  remaining : String → Int
  k : Nat
  tasks : List Task

/-- Lines 98–119, the inner `while cap >= 10` loop for one day `d`.
`fuel` bounds the number of iterations; `generate_week_plan` passes
`cap.toNat`, which over-approximates the iteration count of the source's
loop (each pass removes `give ≥ 10` from `cap`), so the loop always exits
through its own `break`/condition first.  Returns only the tasks created
for this day, in creation order. -/
def allocDayAux (subjects : List Subject) (today : Int) (chunk : Int)
    (gen : Nat → String) (d : Int) :
    Nat → Int → (String → Int) → Nat → AllocState
  | 0, _, remaining, k => ⟨remaining, k, []⟩
  | fuel + 1, cap, remaining, k =>
    if 10 ≤ cap then
      match selectSubject subjects today remaining with
      | none => ⟨remaining, k, []⟩
      | some s =>
        let give := min chunk (min cap (remaining s.id))
        if give < 10 then ⟨remaining, k, []⟩
        else
          let t : Task :=
            { id := gen k, subject_id := s.id, subject_name := s.name,
              day := d, minutes := give, done := false, notes := "" }
          let r := allocDayAux subjects today chunk gen d fuel (cap - give)
            (updFn remaining s.id (remaining s.id - give)) (k + 1)
          ⟨r.remaining, r.k, t :: r.tasks⟩
    else ⟨remaining, k, []⟩

/-- One iteration of the `for d in days` loop (lines 93–119): skip days with
`cap <= 0`, otherwise run the allocation loop and append its tasks. -/
def weekStep (subjects : List Subject) (settings : Settings) (today : Int)
    (gen : Nat → String) (day_capacity : Int → Int)
    (st : AllocState) (d : Int) : AllocState :=
  let cap := day_capacity d
  if cap ≤ 0 then st
  else
    let r := allocDayAux subjects today (effectiveChunk settings) gen d
      cap.toNat cap st.remaining st.k
    ⟨r.remaining, r.k, st.tasks ++ r.tasks⟩

/-- The tasks newly created by `generate_week_plan` (the source's
`new_tasks` accumulator). -/
def generateNewTasks (subjects : List Subject) (settings : Settings)
    (today : Int) (existing_tasks : List Task) (events : List Event)
    (gen : Nat → String) : List Task :=
  let busy_by_day := compute_busy_minutes_by_day events today 7
  let day_capacity := weekCapacity settings today existing_tasks busy_by_day
  ((weekDays today).foldl (weekStep subjects settings today gen day_capacity)
    ⟨remainingInit subjects existing_tasks, 0, []⟩).tasks

/-- `planner.generate_week_plan`: line 121, `return existing_tasks + new_tasks`. -/
def generate_week_plan (subjects : List Subject) (settings : Settings)
    (today : Int) (existing_tasks : List Task) (events : List Event)
    (gen : Nat → String) : List Task :=
  existing_tasks ++ generateNewTasks subjects settings today existing_tasks events gen

/-! ### Overdue rescheduler (`planner.reschedule_overdue`, lines 124–182) -/

/-- Line 131: a task is overdue when it is undone and scheduled before today. -/
def isOverdue (today : Int) (t : Task) : Bool :=
  !t.done && decide (t.day < today)

/-- Line 134. -/
def horizon_days : Nat := 180

/-- Lines 136–139: planned minutes per day from the undone kept tasks. -/
def plannedFromKeep (keep : List Task) : Int → Int :=
  keep.foldl
    (fun m t => if t.done then m else updFn m t.day (m t.day + t.minutes))
    (fun _ => 0)

/-- State of the per-task placement loop (lines 143–167). -/
structure PlaceState where
  cursor : Int
  minutes_left : Int
  planned : Int → Int
  k : Nat
  emitted : List Task

/-- Lines 145–167, the `while minutes_left > 0 and attempts < horizon_days`
loop for one overdue task `t`.  `fuel` is the number of remaining attempts
(initially `horizon_days`); both branches of the loop body increment
`attempts`, i.e. consume one unit of fuel. -/
def placeLoop (settings : Settings) (busy_by_day : Int → Int) (t : Task)
    (gen : Nat → String) : Nat → PlaceState → PlaceState
  | 0, s => s
  | fuel + 1, s =>
    if s.minutes_left ≤ 0 then s
    else
      let cap := _available_minutes_for_day s.cursor settings busy_by_day (some s.planned)
      if cap ≤ 0 then
        placeLoop settings busy_by_day t gen fuel { s with cursor := s.cursor + 1 }
      else
        let take := min s.minutes_left cap
        let new_task : Task :=
          { id := gen s.k, subject_id := t.subject_id,
            subject_name := t.subject_name, day := s.cursor, minutes := take,
            done := false, notes := t.notes }
        placeLoop settings busy_by_day t gen fuel
          { cursor := if cap - take ≤ 0 then s.cursor + 1 else s.cursor,
            minutes_left := s.minutes_left - take,
            planned := updFn s.planned s.cursor (s.planned s.cursor + take),
            k := s.k + 1,
            emitted := s.emitted ++ [new_task] }

/-- Lines 142–179 for a single overdue task: run the placement loop and, if
minutes remain, emit the overflow task (lines 169–179).  Returns the final
loop state (whose `emitted` are the capacity-respecting pieces) and the
optional overflow task.  The source's `t.notes or ""` equals `t.notes` for
strings (an empty string is falsy and is replaced by `""`). -/
def processOverdueTask (settings : Settings) (busy_by_day : Int → Int)
    (today : Int) (gen : Nat → String) (t : Task) (cursor : Int)
    (planned : Int → Int) (k : Nat) : PlaceState × Option Task :=
  let r := placeLoop settings busy_by_day t gen horizon_days
    ⟨cursor, t.minutes, planned, k, []⟩
  if 0 < r.minutes_left then
    ({ r with k := r.k + 1 },
     some { id := gen r.k, subject_id := t.subject_id,
            subject_name := t.subject_name,
            day := if today ≤ r.cursor then r.cursor else today,
            minutes := r.minutes_left, done := false,
            notes := t.notes ++ " (overflow, please reschedule)" })
  else (r, none)

/-- State of the `for t in overdue` loop: the shared cursor, the
planned-minutes map, the id-supply counter, the output `keep` list the
source appends to, and — recorded separately for the specification — the
capacity-respecting (non-overflow) pieces, which are appended into `keep`
identically. -/
structure ReschedState where
  cursor : Int
  planned : Int → Int
  k : Nat
  keep : List Task
  pieces : List Task

/-- One iteration of the `for t in overdue` loop (lines 142–179). -/
def reschedStep (settings : Settings) (busy_by_day : Int → Int) (today : Int)
    (gen : Nat → String) (st : ReschedState) (t : Task) : ReschedState :=
  let r := processOverdueTask settings busy_by_day today gen t st.cursor st.planned st.k
  { cursor := r.1.cursor, planned := r.1.planned, k := r.1.k,
    keep := st.keep ++ r.1.emitted ++ r.2.toList,
    pieces := st.pieces ++ r.1.emitted }

/-- The sort key comparator of line 181:
`keep.sort(key=lambda x: (x.day, x.subject_name.lower()))`, i.e. the
lexicographic "may come before" relation on `(day, lowercased name)`.
Lean's `String.toLower` lowercases per `Char.toLower` where Python's
`str.lower()` applies full Unicode case mapping; they agree on ASCII and
no verified claim depends on the ordering of equal-day tasks. -/
def taskOrderLE (x y : Task) : Bool :=
  decide (x.day < y.day) ||
    (decide (x.day = y.day) &&
      decide (x.subject_name.toLower ≤ y.subject_name.toLower))

/-- Lines 130–179 of `reschedule_overdue`: everything before the final sort. -/
def rescheduleFold (tasks : List Task) (settings : Settings) (today : Int)
    (events : List Event) (gen : Nat → String) : ReschedState :=
  let keep := tasks.filter (fun t => !isOverdue today t)
  let overdue := tasks.filter (isOverdue today)
  let busy_by_day := compute_busy_minutes_by_day events today horizon_days
  overdue.foldl (reschedStep settings busy_by_day today gen)
    ⟨today, plannedFromKeep keep, 0, keep, []⟩

/-- `planner.reschedule_overdue`. -/
def reschedule_overdue (tasks : List Task) (settings : Settings) (today : Int)
    (events : List Event) (gen : Nat → String) : List Task :=
  sortStable taskOrderLE (rescheduleFold tasks settings today events gen).keep

/-- The capacity-respecting (non-overflow) tasks created by a run of
`reschedule_overdue`. -/
def reschedulePieces (tasks : List Task) (settings : Settings) (today : Int)
    (events : List Event) (gen : Nat → String) : List Task :=
  (rescheduleFold tasks settings today events gen).pieces

/-! ### Risk scorer (`planner.build_risk_list`, lines 185–227) -/

/-- One entry of the risk list (the dict built at lines 214–224). -/
structure Risk where
  subject : String
  deadline : Int
  days_left : Int
  remaining_minutes : Int
  remaining_hours : Rat
  suggested_today_minutes : Int
  difficulty : Int
  score : Rat
  level : String
deriving DecidableEq

/-- Lines 191–194: total planned minutes per subject id (all tasks). -/
def plannedBySubject (tasks : List Task) : String → Int :=
  tasks.foldl (fun m t => updFn m t.subject_id (m t.subject_id + t.minutes))
    (fun _ => 0)

/-- Lines 191–196: minutes of done tasks per subject id (computed by the
source but never read afterwards). -/
def doneBySubject (tasks : List Task) : String → Int :=
  tasks.foldl
    (fun m t =>
      if t.done then updFn m t.subject_id (m t.subject_id + t.minutes) else m)
    (fun _ => 0)

/-- Python `round(q, 1)`. -/
def roundTenth (q : Rat) : Rat := ((round (q * 10) : Int) : Rat) / 10

/-- Lines 199–224, the body of `for s in subjects`: the risk entry for one
subject, or `none` when `score <= 0` (line 205's `continue`). -/
def riskEntry (tasks : List Task) (today : Int) (s : Subject) : Option Risk :=
  let total_needed : Int := round (s.est_hours * 60)
  let remaining : Int := max 0 (total_needed - plannedBySubject tasks s.id)
  let days_left := _days_left today s.deadline
  let urgency : Rat := 1 / ((days_left : Int) : Rat)
  let score : Rat := (remaining : Rat) * urgency * (s.difficulty : Rat)
  if score ≤ 0 then none
  else
    some { subject := s.name, deadline := s.deadline, days_left := days_left,
           remaining_minutes := remaining,
           remaining_hours := roundTenth ((remaining : Rat) / 60),
           suggested_today_minutes :=
             round ((remaining : Rat) / ((max 1 days_left : Int) : Rat)),
           difficulty := s.difficulty, score := score,
           level :=
             if 500 ≤ score then "HIGH"
             else if 200 ≤ score then "MED"
             else "LOW" }

/-- `planner.build_risk_list`: collect entries, stable-sort by score
descending, truncate to `limit`. -/
def build_risk_list (subjects : List Subject) (tasks : List Task)
    (today : Int) (limit : Nat) : List Risk :=
  let risks := subjects.filterMap (riskEntry tasks today)
  (sortStable (fun a b => decide (b.score ≤ a.score)) risks).take limit

/-- A task with its id erased: the projection under which outputs are
compared "up to freshly generated ids". -/
def stripId (t : Task) : Task := { t with id := "" }

/-- Total minutes of a list of tasks. -/
def sumMinutes (l : List Task) : Int := (l.map Task.minutes).sum

/-! ### Basic lemmas: `updFn` and the stable sort -/

theorem updFn_apply {α : Type} [DecidableEq α] (m : α → Int) (k : α) (v : Int)
    (x : α) : updFn m k v x = if x = k then v else m x := rfl

theorem mem_insertOrdered {α : Type} (le : α → α → Bool) (x : α) (l : List α)
    (a : α) : a ∈ insertOrdered le x l ↔ a = x ∨ a ∈ l := by
  induction l with
  | nil => simp [insertOrdered]
  | cons y ys ih =>
    simp only [insertOrdered]
    by_cases h : le x y = true
    · rw [if_pos h]
      simp [List.mem_cons]
    · rw [if_neg h]
      simp only [List.mem_cons, ih]
      tauto

theorem perm_insertOrdered {α : Type} (le : α → α → Bool) (x : α)
    (l : List α) : (insertOrdered le x l).Perm (x :: l) := by
  induction l with
  | nil => exact List.Perm.refl _
  | cons y ys ih =>
    simp only [insertOrdered]
    by_cases h : le x y = true
    · rw [if_pos h]
    · rw [if_neg h]
      exact (ih.cons y).trans (List.Perm.swap x y ys)

theorem perm_sortStable {α : Type} (le : α → α → Bool) (l : List α) :
    (sortStable le l).Perm l := by
  induction l with
  | nil => exact List.Perm.refl _
  | cons x xs ih =>
    exact (perm_insertOrdered le x (sortStable le xs)).trans (ih.cons x)

theorem mem_sortStable {α : Type} (le : α → α → Bool) (l : List α) (a : α) :
    a ∈ sortStable le l ↔ a ∈ l :=
  (perm_sortStable le l).mem_iff

theorem pairwise_insertOrdered {α : Type} (le : α → α → Bool)
    (htot : ∀ a b, le a b = true ∨ le b a = true)
    (htrans : ∀ a b c, le a b = true → le b c = true → le a c = true)
    (x : α) (l : List α) (h : l.Pairwise (fun a b => le a b = true)) :
    (insertOrdered le x l).Pairwise (fun a b => le a b = true) := by
  induction l with
  | nil => simp [insertOrdered]
  | cons y ys ih =>
    rcases List.pairwise_cons.mp h with ⟨hy, hys⟩
    simp only [insertOrdered]
    by_cases hxy : le x y = true
    · rw [if_pos hxy]
      refine List.pairwise_cons.mpr ⟨?_, h⟩
      intro b hb
      rcases List.mem_cons.mp hb with rfl | hb
      · exact hxy
      · exact htrans x y b hxy (hy b hb)
    · rw [if_neg hxy]
      have hyx : le y x = true := by
        rcases htot x y with h1 | h1
        · exact absurd h1 hxy
        · exact h1
      refine List.pairwise_cons.mpr ⟨?_, ih hys⟩
      intro b hb
      rcases (mem_insertOrdered le x ys b).mp hb with rfl | hb
      · exact hyx
      · exact hy b hb

theorem pairwise_sortStable {α : Type} (le : α → α → Bool)
    (htot : ∀ a b, le a b = true ∨ le b a = true)
    (htrans : ∀ a b c, le a b = true → le b c = true → le a c = true)
    (l : List α) :
    (sortStable le l).Pairwise (fun a b => le a b = true) := by
  induction l with
  | nil => simp [sortStable]
  | cons x xs ih =>
    exact pairwise_insertOrdered le htot htrans x (sortStable le xs) ih

theorem map_insertOrdered {α β : Type} (f : α → β) (le : α → α → Bool)
    (le2 : β → β → Bool) (hc : ∀ a b, le a b = le2 (f a) (f b)) (x : α)
    (l : List α) :
    (insertOrdered le x l).map f = insertOrdered le2 (f x) (l.map f) := by
  induction l with
  | nil => rfl
  | cons y ys ih =>
    simp only [insertOrdered, List.map_cons]
    rw [apply_ite (List.map f), ← hc x y]
    simp only [List.map_cons, ih]

theorem map_sortStable {α β : Type} (f : α → β) (le : α → α → Bool)
    (le2 : β → β → Bool) (hc : ∀ a b, le a b = le2 (f a) (f b)) (l : List α) :
    (sortStable le l).map f = sortStable le2 (l.map f) := by
  induction l with
  | nil => rfl
  | cons x xs ih =>
    simp only [sortStable, map_insertOrdered f le le2 hc, ih]

theorem count_sortStable {α : Type} [DecidableEq α] (le : α → α → Bool)
    (l : List α) (a : α) : (sortStable le l).count a = l.count a :=
  (perm_sortStable le l).count_eq a

/-! ### Lemmas about the busy-time aggregator -/

theorem mem_windowDates (start_date : Int) (num_days : Nat) (x : Int) :
    x ∈ windowDates start_date num_days ↔
      ∃ i : Nat, i < num_days ∧ x = start_date + (i : Int) := by
  unfold windowDates
  rw [List.mem_map]
  constructor
  · rintro ⟨i, hi, hix⟩
    exact ⟨i, List.mem_range.mp hi, hix.symm⟩
  · rintro ⟨i, hi, rfl⟩
    exact ⟨i, List.mem_range.mpr hi, rfl⟩

theorem windowDates_nodup (start_date : Int) (num_days : Nat) :
    (windowDates start_date num_days).Nodup := by
  unfold windowDates
  apply List.Nodup.map
  · intro a b h
    have h2 : start_date + (a : Int) = start_date + (b : Int) := h
    omega
  · exact List.nodup_range num_days

/-- Evaluating the per-event inner fold: over distinct dates, each bucket
receives its own (positive) overlap exactly once. -/
theorem foldl_eventDayStep (ev : Event) (dates : List Int) (m : Int → Int)
    (x : Int) (hnd : dates.Nodup) :
    dates.foldl (eventDayStep ev) m x =
      m x + (if x ∈ dates ∧ overlapStart ev x < overlapEnd ev x then
        (overlapEnd ev x - overlapStart ev x) / 60 else 0) := by
  induction dates generalizing m with
  | nil => simp
  | cons d ds ih =>
    rcases List.nodup_cons.mp hnd with ⟨hd, hds⟩
    simp only [List.foldl_cons]
    rw [ih _ hds]
    by_cases hx : x = d
    · subst hx
      have hxds : x ∉ ds := hd
      by_cases hov : overlapStart ev x < overlapEnd ev x
      · simp [eventDayStep, updFn_apply, hov, hxds]
      · simp [eventDayStep, hov, hxds]
    · have hstep : eventDayStep ev m d x = m x := by
        by_cases hov : overlapStart ev d < overlapEnd ev d
        · simp [eventDayStep, updFn_apply, hov, hx]
        · simp [eventDayStep, hov]
      rw [hstep]
      simp only [List.mem_cons]
      by_cases hxds : x ∈ ds ∧ overlapStart ev x < overlapEnd ev x
      · rw [if_pos hxds, if_pos ⟨Or.inr hxds.1, hxds.2⟩]
      · rw [if_neg hxds, if_neg ?_]
        intro hc
        rcases hc with ⟨hmem | hmem, hov⟩
        · exact hx hmem
        · exact hxds ⟨hmem, hov⟩

/-- A single positive-duration event contributes to each window bucket its
floor-divided overlap with that day, and nothing outside the window. -/
theorem compute_busy_single (ev : Event) (start_date : Int) (num_days : Nat)
    (hpos : ev.start < ev.end_) (x : Int) :
    compute_busy_minutes_by_day [ev] start_date num_days x =
      (if x ∈ windowDates start_date num_days ∧
          overlapStart ev x < overlapEnd ev x then
        (overlapEnd ev x - overlapStart ev x) / 60 else 0) := by
  simp only [compute_busy_minutes_by_day, List.foldl_cons, List.foldl_nil]
  rw [if_neg (by omega)]
  rw [foldl_eventDayStep ev _ _ x (windowDates_nodup start_date num_days)]
  exact zero_add _

theorem busy_within_day (ev : Event) (start_date : Int) (num_days : Nat)
    (d : Int) (hpos : ev.start < ev.end_)
    (hd : d ∈ windowDates start_date num_days)
    (hlo : dayStart d ≤ ev.start) (hhi : ev.end_ ≤ dayStart d + 86400) :
    compute_busy_minutes_by_day [ev] start_date num_days d =
        (ev.end_ - ev.start) / 60 ∧
      ∀ x ∈ windowDates start_date num_days, x ≠ d →
        compute_busy_minutes_by_day [ev] start_date num_days x = 0 := by
  have h1 : overlapStart ev d = ev.start := by
    simp only [overlapStart, dayStart] at *
    omega
  have h2 : overlapEnd ev d = ev.end_ := by
    simp only [overlapEnd, dayStart] at *
    omega
  constructor
  · rw [compute_busy_single ev start_date num_days hpos d,
      if_pos ⟨hd, by rw [h1, h2]; exact hpos⟩, h1, h2]
  · intro x hx hxd
    rw [compute_busy_single ev start_date num_days hpos x, if_neg]
    rintro ⟨-, hov⟩
    obtain ⟨i, hi, rfl⟩ := (mem_windowDates start_date num_days d).mp hd
    obtain ⟨j, hj, rfl⟩ := (mem_windowDates start_date num_days _).mp hx
    simp only [overlapStart, overlapEnd, dayStart] at hov hlo hhi
    omega

theorem busy_midnight_cross (ev : Event) (start_date : Int) (num_days : Nat)
    (d : Int) (hd : d ∈ windowDates start_date num_days)
    (hd1 : d + 1 ∈ windowDates start_date num_days)
    (hlo : dayStart d ≤ ev.start) (hcross1 : ev.start < dayStart (d + 1))
    (hcross2 : dayStart (d + 1) < ev.end_)
    (hhi : ev.end_ ≤ dayStart (d + 2))
    (has : (60 : Int) ∣ ev.start) (hae : (60 : Int) ∣ ev.end_) :
    compute_busy_minutes_by_day [ev] start_date num_days d +
        compute_busy_minutes_by_day [ev] start_date num_days (d + 1) =
        (ev.end_ - ev.start) / 60 ∧
      ∀ x ∈ windowDates start_date num_days, x ≠ d → x ≠ d + 1 →
        compute_busy_minutes_by_day [ev] start_date num_days x = 0 := by
  have hpos : ev.start < ev.end_ := by
    simp only [dayStart] at hcross1 hcross2
    omega
  have h1 : overlapStart ev d = ev.start := by
    simp only [overlapStart, dayStart] at *
    omega
  have h2 : overlapEnd ev d = dayStart d + 86400 := by
    simp only [overlapEnd, dayStart] at *
    omega
  have h3 : overlapStart ev (d + 1) = dayStart (d + 1) := by
    simp only [overlapStart, dayStart] at *
    omega
  have h4 : overlapEnd ev (d + 1) = ev.end_ := by
    simp only [overlapEnd, dayStart] at *
    omega
  constructor
  · rw [compute_busy_single ev start_date num_days hpos d,
      if_pos ⟨hd, by rw [h1, h2]; simp only [dayStart] at hcross1 ⊢; omega⟩,
      compute_busy_single ev start_date num_days hpos (d + 1),
      if_pos ⟨hd1, by rw [h3, h4]; simp only [dayStart] at hcross2 ⊢; omega⟩,
      h1, h2, h3, h4]
    simp only [dayStart] at *
    omega
  · intro x hx hxd hxd1
    rw [compute_busy_single ev start_date num_days hpos x, if_neg]
    rintro ⟨-, hov⟩
    obtain ⟨i, hi, rfl⟩ := (mem_windowDates start_date num_days d).mp hd
    obtain ⟨j, hj, rfl⟩ := (mem_windowDates start_date num_days _).mp hx
    simp only [overlapStart, overlapEnd, dayStart] at hov hlo hhi hcross1 hcross2
    omega

/-! ### Lemmas about the week plan generator -/

theorem sumMinutes_nil : sumMinutes [] = 0 := rfl

theorem sumMinutes_cons (t : Task) (l : List Task) :
    sumMinutes (t :: l) = t.minutes + sumMinutes l := by
  simp [sumMinutes]

theorem sumMinutes_append (l1 l2 : List Task) :
    sumMinutes (l1 ++ l2) = sumMinutes l1 + sumMinutes l2 := by
  simp [sumMinutes]

theorem weekCapacityBase_nonneg (settings : Settings) (busy_by_day : Int → Int)
    (x : Int) : 0 ≤ weekCapacityBase settings busy_by_day x := by
  simp only [weekCapacityBase]
  exact le_max_left 0 _

theorem weekCapacity_nonneg (settings : Settings) (today : Int)
    (existing_tasks : List Task) (busy_by_day : Int → Int) (x : Int) :
    0 ≤ weekCapacity settings today existing_tasks busy_by_day x := by
  simp only [weekCapacity]
  have h : ∀ (l : List Task) (f : Int → Int), (∀ y, 0 ≤ f y) → ∀ y,
      0 ≤ l.foldl
        (fun cap t =>
          if ¬t.done ∧ t.day ∈ weekDays today then
            updFn cap t.day (max 0 (cap t.day - t.minutes))
          else cap) f y := by
    intro l
    induction l with
    | nil => intro f hf y; exact hf y
    | cons t ts ih =>
      intro f hf y
      refine ih _ ?_ y
      intro z
      dsimp only
      by_cases hc : ¬t.done ∧ t.day ∈ weekDays today
      · rw [if_pos hc, updFn_apply]
        by_cases hz : z = t.day
        · rw [if_pos hz]
          exact le_max_left 0 _
        · rw [if_neg hz]
          exact hf z
      · rw [if_neg hc]
        exact hf z
  exact h existing_tasks _ (weekCapacityBase_nonneg settings busy_by_day) x

theorem allocDayAux_mem (subjects : List Subject) (today chunk : Int)
    (gen : Nat → String) (d : Int) :
    ∀ (fuel : Nat) (cap : Int) (remaining : String → Int) (k : Nat)
      (t : Task),
      t ∈ (allocDayAux subjects today chunk gen d fuel cap remaining k).tasks →
      t.day = d ∧ 10 ≤ t.minutes ∧ t.minutes ≤ chunk ∧ t.done = false ∧
        ∃ j : Nat, t.id = gen j := by
  intro fuel
  induction fuel with
  | zero =>
    intro cap remaining k t ht
    simp [allocDayAux] at ht
  | succ fuel ih =>
    intro cap remaining k t ht
    simp only [allocDayAux] at ht
    by_cases hcap : 10 ≤ cap
    · rw [if_pos hcap] at ht
      rcases hsel : selectSubject subjects today remaining with _ | s
      · simp only [hsel] at ht
        simp at ht
      · simp only [hsel] at ht
        by_cases hg : min chunk (min cap (remaining s.id)) < 10
        · rw [if_pos hg] at ht
          simp at ht
        · rw [if_neg hg] at ht
          simp only [List.mem_cons] at ht
          rcases ht with rfl | ht
          · exact ⟨rfl, by dsimp only; omega, min_le_left _ _, rfl, ⟨k, rfl⟩⟩
          · exact ih _ _ _ t ht
    · rw [if_neg hcap] at ht
      simp at ht

theorem allocDayAux_sum (subjects : List Subject) (today chunk : Int)
    (gen : Nat → String) (d : Int) :
    ∀ (fuel : Nat) (cap : Int) (remaining : String → Int) (k : Nat),
      sumMinutes (allocDayAux subjects today chunk gen d fuel cap remaining k).tasks
        ≤ max 0 cap := by
  intro fuel
  induction fuel with
  | zero =>
    intro cap remaining k
    simp only [allocDayAux, sumMinutes_nil]
    exact le_max_left 0 _
  | succ fuel ih =>
    intro cap remaining k
    simp only [allocDayAux]
    by_cases hcap : 10 ≤ cap
    · rw [if_pos hcap]
      rcases hsel : selectSubject subjects today remaining with _ | s
      · simp only [hsel, sumMinutes_nil]
        exact le_max_left 0 _
      · simp only [hsel]
        by_cases hg : min chunk (min cap (remaining s.id)) < 10
        · rw [if_pos hg]
          simp only [sumMinutes_nil]
          exact le_max_left 0 _
        · rw [if_neg hg]
          simp only [sumMinutes_cons]
          have hrec := ih (cap - min chunk (min cap (remaining s.id)))
            (updFn remaining s.id
              (remaining s.id - min chunk (min cap (remaining s.id)))) (k + 1)
          have hgle : min chunk (min cap (remaining s.id)) ≤ cap :=
            le_trans (min_le_right _ _) (min_le_left _ _)
          omega
    · rw [if_neg hcap]
      simp only [sumMinutes_nil]
      exact le_max_left 0 _

theorem weekStep_filter_other (subjects : List Subject) (settings : Settings)
    (today : Int) (gen : Nat → String) (day_capacity : Int → Int)
    (st : AllocState) (dd p : Int) (hp : p ≠ dd) :
    ((weekStep subjects settings today gen day_capacity st dd).tasks).filter
        (fun t => decide (t.day = p)) =
      st.tasks.filter (fun t => decide (t.day = p)) := by
  simp only [weekStep]
  by_cases hcap : day_capacity dd ≤ 0
  · rw [if_pos hcap]
  · rw [if_neg hcap]
    dsimp only
    rw [List.filter_append]
    have hnil : (allocDayAux subjects today (effectiveChunk settings) gen dd
        (day_capacity dd).toNat (day_capacity dd) st.remaining st.k).tasks.filter
        (fun t => decide (t.day = p)) = [] := by
      rw [List.filter_eq_nil_iff]
      intro t ht
      have hd := (allocDayAux_mem subjects today (effectiveChunk settings) gen dd
        _ _ _ _ t ht).1
      simp only [hd, decide_eq_true_eq]
      exact fun h => hp h.symm
    rw [hnil, List.append_nil]

theorem weekStep_tasks_mem (subjects : List Subject) (settings : Settings)
    (today : Int) (gen : Nat → String) (day_capacity : Int → Int)
    (st : AllocState) (dd : Int) (t : Task)
    (ht : t ∈ (weekStep subjects settings today gen day_capacity st dd).tasks) :
    t ∈ st.tasks ∨ (10 ≤ t.minutes ∧ t.minutes ≤ effectiveChunk settings ∧
      t.done = false ∧ ∃ j : Nat, t.id = gen j) := by
  simp only [weekStep] at ht
  by_cases hcap : day_capacity dd ≤ 0
  · rw [if_pos hcap] at ht
    exact Or.inl ht
  · rw [if_neg hcap] at ht
    dsimp only at ht
    rcases List.mem_append.mp ht with h | h
    · exact Or.inl h
    · have := allocDayAux_mem subjects today (effectiveChunk settings) gen dd
        _ _ _ _ t h
      exact Or.inr ⟨this.2.1, this.2.2.1, this.2.2.2.1, this.2.2.2.2⟩

theorem weekFold_frozen (subjects : List Subject) (settings : Settings)
    (today : Int) (gen : Nat → String) (day_capacity : Int → Int) :
    ∀ (days : List Int) (st : AllocState) (p : Int), p ∉ days →
      ((days.foldl (weekStep subjects settings today gen day_capacity) st).tasks).filter
          (fun t => decide (t.day = p)) =
        st.tasks.filter (fun t => decide (t.day = p)) := by
  intro days
  induction days with
  | nil => intro st p _; rfl
  | cons dd rest ih =>
    intro st p hp
    simp only [List.mem_cons] at hp
    push_neg at hp
    simp only [List.foldl_cons]
    rw [ih _ p hp.2]
    exact weekStep_filter_other subjects settings today gen day_capacity st dd p hp.1

theorem weekFold_sum (subjects : List Subject) (settings : Settings)
    (today : Int) (gen : Nat → String) (day_capacity : Int → Int)
    (hcap : ∀ x, 0 ≤ day_capacity x) :
    ∀ (days : List Int) (st : AllocState) (p : Int), days.Nodup →
      sumMinutes (((days.foldl (weekStep subjects settings today gen day_capacity) st).tasks).filter
          (fun t => decide (t.day = p)))
        ≤ sumMinutes (st.tasks.filter (fun t => decide (t.day = p))) +
            day_capacity p := by
  intro days
  induction days with
  | nil =>
    intro st p _
    simp only [List.foldl_nil]
    have := hcap p
    omega
  | cons dd rest ih =>
    intro st p hnd
    rcases List.nodup_cons.mp hnd with ⟨hdd, hrest⟩
    simp only [List.foldl_cons]
    by_cases hp : p = dd
    · subst hp
      rw [weekFold_frozen subjects settings today gen day_capacity rest _ p hdd]
      simp only [weekStep]
      by_cases hc : day_capacity p ≤ 0
      · rw [if_pos hc]
        have := hcap p
        omega
      · rw [if_neg hc]
        dsimp only
        rw [List.filter_append, sumMinutes_append]
        have hfil : (allocDayAux subjects today (effectiveChunk settings) gen p
            (day_capacity p).toNat (day_capacity p) st.remaining st.k).tasks.filter
            (fun t => decide (t.day = p)) =
            (allocDayAux subjects today (effectiveChunk settings) gen p
              (day_capacity p).toNat (day_capacity p) st.remaining st.k).tasks := by
          rw [List.filter_eq_self]
          intro t ht
          have hd := (allocDayAux_mem subjects today (effectiveChunk settings)
            gen p _ _ _ _ t ht).1
          simp [hd]
        rw [hfil]
        have hsum := allocDayAux_sum subjects today (effectiveChunk settings)
          gen p (day_capacity p).toNat (day_capacity p) st.remaining st.k
        have h0 := hcap p
        omega
    · have hstep := weekStep_filter_other subjects settings today gen
        day_capacity st dd p hp
      have := ih (weekStep subjects settings today gen day_capacity st dd) p hrest
      rw [hstep] at this
      exact this

theorem weekFold_mem (subjects : List Subject) (settings : Settings)
    (today : Int) (gen : Nat → String) (day_capacity : Int → Int) :
    ∀ (days : List Int) (st : AllocState) (t : Task),
      t ∈ ((days.foldl (weekStep subjects settings today gen day_capacity) st).tasks) →
      t ∈ st.tasks ∨ (10 ≤ t.minutes ∧ t.minutes ≤ effectiveChunk settings ∧
        t.done = false ∧ ∃ j : Nat, t.id = gen j) := by
  intro days
  induction days with
  | nil => intro st t ht; exact Or.inl ht
  | cons dd rest ih =>
    intro st t ht
    simp only [List.foldl_cons] at ht
    rcases ih _ t ht with h | h
    · exact weekStep_tasks_mem subjects settings today gen day_capacity st dd t h
    · exact Or.inr h

/-- C1: for every day `d`, the total minutes of the tasks newly created by
`generate_week_plan` on day `d` never exceed that day's computed capacity —
0 on a rest day, otherwise `minutes_per_day - busy - buffer` clamped at 0,
further reduced (clamped at 0) by the minutes of existing undone tasks
scheduled on that day within the window — for every input list of subjects,
existing tasks, events, settings and id supply. -/
theorem generate_week_plan_day_capacity (subjects : List Subject)
    (settings : Settings) (today : Int) (existing_tasks : List Task)
    (events : List Event) (gen : Nat → String) (d : Int) :
    sumMinutes ((generateNewTasks subjects settings today existing_tasks events gen).filter
        (fun t => decide (t.day = d)))
      ≤ weekCapacity settings today existing_tasks
          (compute_busy_minutes_by_day events today 7) d := by
  have h := weekFold_sum subjects settings today gen
    (weekCapacity settings today existing_tasks
      (compute_busy_minutes_by_day events today 7))
    (weekCapacity_nonneg settings today existing_tasks _)
    (weekDays today) ⟨remainingInit subjects existing_tasks, 0, []⟩ d
    (windowDates_nodup today 7)
  simpa [generateNewTasks, sumMinutes_nil] using h

/-- C4: every task newly created by `generate_week_plan` has at least 10
minutes and at most the effective chunk size (the configured chunk if it is
one of 25, 45, 60, otherwise 25 — `effectiveChunk` also applies the
source's redundant `max(10, ...)` floor, which is the identity on those
values), for every input; pre-existing tasks are untouched and exempt. -/
theorem generate_week_plan_chunk_bounds (subjects : List Subject)
    (settings : Settings) (today : Int) (existing_tasks : List Task)
    (events : List Event) (gen : Nat → String) (t : Task)
    (ht : t ∈ generateNewTasks subjects settings today existing_tasks events gen) :
    10 ≤ t.minutes ∧ t.minutes ≤ effectiveChunk settings := by
  simp only [generateNewTasks] at ht
  rcases weekFold_mem subjects settings today gen _ (weekDays today)
      ⟨remainingInit subjects existing_tasks, 0, []⟩ t ht with h | h
  · simp at h
  · exact ⟨h.1, h.2.1⟩

/-- C9: the list returned by `generate_week_plan` is exactly the input
existing-task list, unchanged and in order, followed by the newly created
tasks — no existing task is deleted or modified. -/
theorem generate_week_plan_frame (subjects : List Subject)
    (settings : Settings) (today : Int) (existing_tasks : List Task)
    (events : List Event) (gen : Nat → String) :
    ∃ new_tasks : List Task,
      generate_week_plan subjects settings today existing_tasks events gen =
        existing_tasks ++ new_tasks ∧
      new_tasks = generateNewTasks subjects settings today existing_tasks events gen :=
  ⟨generateNewTasks subjects settings today existing_tasks events gen, rfl, rfl⟩

/-! ### Lemmas about the overdue rescheduler -/

theorem placeLoop_cursor_mono (settings : Settings) (busy : Int → Int)
    (t : Task) (gen : Nat → String) :
    ∀ (fuel : Nat) (s : PlaceState),
      s.cursor ≤ (placeLoop settings busy t gen fuel s).cursor := by
  intro fuel
  induction fuel with
  | zero => intro s; exact le_refl _
  | succ fuel ih =>
    intro s
    simp only [placeLoop]
    by_cases h1 : s.minutes_left ≤ 0
    · rw [if_pos h1]
    · rw [if_neg h1]
      by_cases h2 : _available_minutes_for_day s.cursor settings busy (some s.planned) ≤ 0
      · rw [if_pos h2]
        have h := ih { s with cursor := s.cursor + 1 }
        dsimp only at h
        omega
      · rw [if_neg h2]
        refine le_trans ?_ (ih _)
        dsimp only
        split <;> omega

theorem placeLoop_minutes_nonneg (settings : Settings) (busy : Int → Int)
    (t : Task) (gen : Nat → String) :
    ∀ (fuel : Nat) (s : PlaceState), 0 ≤ s.minutes_left →
      0 ≤ (placeLoop settings busy t gen fuel s).minutes_left := by
  intro fuel
  induction fuel with
  | zero => intro s h; exact h
  | succ fuel ih =>
    intro s h
    simp only [placeLoop]
    by_cases h1 : s.minutes_left ≤ 0
    · rw [if_pos h1]
      exact h
    · rw [if_neg h1]
      by_cases h2 : _available_minutes_for_day s.cursor settings busy (some s.planned) ≤ 0
      · rw [if_pos h2]
        exact ih _ h
      · rw [if_neg h2]
        refine ih _ ?_
        dsimp only
        omega

theorem placeLoop_sum (settings : Settings) (busy : Int → Int)
    (t : Task) (gen : Nat → String) :
    ∀ (fuel : Nat) (s : PlaceState),
      sumMinutes (placeLoop settings busy t gen fuel s).emitted +
          (placeLoop settings busy t gen fuel s).minutes_left =
        sumMinutes s.emitted + s.minutes_left := by
  intro fuel
  induction fuel with
  | zero => intro s; rfl
  | succ fuel ih =>
    intro s
    simp only [placeLoop]
    by_cases h1 : s.minutes_left ≤ 0
    · rw [if_pos h1]
    · rw [if_neg h1]
      by_cases h2 : _available_minutes_for_day s.cursor settings busy (some s.planned) ≤ 0
      · rw [if_pos h2]
        exact ih _
      · rw [if_neg h2]
        rw [ih _]
        dsimp only
        rw [sumMinutes_append, sumMinutes_cons, sumMinutes_nil]
        dsimp only
        omega

/-- Every task appended by the placement loop is undone, scheduled no
earlier than the loop's cursor, never on a rest day, with positive minutes,
a fresh id from the supply, and the original task's subject and notes. -/
theorem placeLoop_emitted (settings : Settings) (busy : Int → Int)
    (t : Task) (gen : Nat → String) :
    ∀ (fuel : Nat) (s : PlaceState) (p : Task),
      p ∈ (placeLoop settings busy t gen fuel s).emitted →
      p ∈ s.emitted ∨ (p.done = false ∧ s.cursor ≤ p.day ∧
        weekday p.day ∉ settings.rest_days ∧ 0 < p.minutes ∧
        (∃ j : Nat, p.id = gen j) ∧ p.subject_id = t.subject_id ∧
        p.subject_name = t.subject_name ∧ p.notes = t.notes) := by
  intro fuel
  induction fuel with
  | zero => intro s p hp; exact Or.inl hp
  | succ fuel ih =>
    intro s p hp
    simp only [placeLoop] at hp
    by_cases h1 : s.minutes_left ≤ 0
    · rw [if_pos h1] at hp
      exact Or.inl hp
    · rw [if_neg h1] at hp
      by_cases h2 : _available_minutes_for_day s.cursor settings busy (some s.planned) ≤ 0
      · rw [if_pos h2] at hp
        rcases ih _ p hp with h | h
        · exact Or.inl h
        · refine Or.inr ⟨h.1, ?_, h.2.2⟩
          dsimp only at h
          omega
      · rw [if_neg h2] at hp
        rcases ih _ p hp with h | h
        · dsimp only at h
          rcases List.mem_append.mp h with h3 | h3
          · exact Or.inl h3
          · rcases List.mem_singleton.mp h3 with rfl
            refine Or.inr ⟨rfl, le_refl _, ?_, ?_, ⟨s.k, rfl⟩, rfl, rfl, rfl⟩
            · intro hrest
              rw [_available_minutes_for_day, if_pos hrest] at h2
              exact h2 (le_refl 0)
            · dsimp only
              omega
        · refine Or.inr ⟨h.1, ?_, h.2.2⟩
          dsimp only at h
          rcases h with ⟨-, hday, -⟩
          split at hday <;> omega

theorem processOverdueTask_fst_emitted (settings : Settings)
    (busy : Int → Int) (today : Int) (gen : Nat → String) (t : Task)
    (cursor : Int) (planned : Int → Int) (k : Nat) :
    (processOverdueTask settings busy today gen t cursor planned k).1.emitted =
      (placeLoop settings busy t gen horizon_days
        ⟨cursor, t.minutes, planned, k, []⟩).emitted := by
  simp only [processOverdueTask]
  split <;> rfl

theorem processOverdueTask_fst_cursor (settings : Settings)
    (busy : Int → Int) (today : Int) (gen : Nat → String) (t : Task)
    (cursor : Int) (planned : Int → Int) (k : Nat) :
    (processOverdueTask settings busy today gen t cursor planned k).1.cursor =
      (placeLoop settings busy t gen horizon_days
        ⟨cursor, t.minutes, planned, k, []⟩).cursor := by
  simp only [processOverdueTask]
  split <;> rfl

theorem processOverdueTask_overflow_mem (settings : Settings)
    (busy : Int → Int) (today : Int) (gen : Nat → String) (t : Task)
    (cursor : Int) (planned : Int → Int) (k : Nat) (p : Task)
    (hp : p ∈ (processOverdueTask settings busy today gen t cursor planned k).2.toList) :
    p.done = false ∧ today ≤ p.day ∧ ∃ j : Nat, p.id = gen j := by
  simp only [processOverdueTask] at hp
  by_cases hml : 0 < (placeLoop settings busy t gen horizon_days
      ⟨cursor, t.minutes, planned, k, []⟩).minutes_left
  · rw [if_pos hml] at hp
    simp only [Option.toList, List.mem_singleton] at hp
    subst hp
    refine ⟨rfl, ?_, ⟨_, rfl⟩⟩
    dsimp only
    split <;> omega
  · rw [if_neg hml] at hp
    simp [Option.toList] at hp

/-- C2: for every overdue task processed by the rescheduler, the total
minutes of the emitted tasks — the capacity-respecting pieces plus the
optional overflow task — equal the original task's minutes exactly (the
task validity bound `minutes > 0` is weakened to `0 ≤ minutes`, which is
all the proof needs). -/
theorem reschedule_minutes_conserved (settings : Settings)
    (busy : Int → Int) (today : Int) (gen : Nat → String) (t : Task)
    (cursor : Int) (planned : Int → Int) (k : Nat) (h : 0 ≤ t.minutes) :
    sumMinutes ((processOverdueTask settings busy today gen t cursor planned k).1.emitted ++
        (processOverdueTask settings busy today gen t cursor planned k).2.toList) =
      t.minutes := by
  have hsum := placeLoop_sum settings busy t gen horizon_days
    ⟨cursor, t.minutes, planned, k, []⟩
  have hnn := placeLoop_minutes_nonneg settings busy t gen horizon_days
    ⟨cursor, t.minutes, planned, k, []⟩ h
  rw [sumMinutes_append]
  rw [processOverdueTask_fst_emitted]
  dsimp only at hsum
  rw [sumMinutes_nil] at hsum
  simp only [processOverdueTask]
  by_cases hml : 0 < (placeLoop settings busy t gen horizon_days
      ⟨cursor, t.minutes, planned, k, []⟩).minutes_left
  · rw [if_pos hml]
    simp only [Option.toList]
    rw [sumMinutes_cons, sumMinutes_nil]
    dsimp only
    omega
  · rw [if_neg hml]
    simp only [Option.toList]
    rw [sumMinutes_nil]
    omega

/-- Invariant of the `for t in overdue` fold: the cursor never falls back
before `today`; the output `keep` list only grows, by undone tasks dated
`today` or later carrying supply-generated ids; and every recorded
capacity-respecting piece is undone, dated `today` or later, not on a rest
day, with positive minutes. -/
theorem reschedFold_inv (settings : Settings) (busy : Int → Int)
    (today : Int) (gen : Nat → String) :
    ∀ (ts : List Task) (st : ReschedState), today ≤ st.cursor →
      today ≤ (ts.foldl (reschedStep settings busy today gen) st).cursor ∧
      (∃ L, (ts.foldl (reschedStep settings busy today gen) st).keep =
          st.keep ++ L ∧
        ∀ p ∈ L, p.done = false ∧ today ≤ p.day ∧ ∃ j : Nat, p.id = gen j) ∧
      (∀ p ∈ (ts.foldl (reschedStep settings busy today gen) st).pieces,
        p ∈ st.pieces ∨ (p.done = false ∧ today ≤ p.day ∧
          weekday p.day ∉ settings.rest_days ∧ 0 < p.minutes)) := by
  intro ts
  induction ts with
  | nil =>
    intro st hst
    exact ⟨hst, ⟨[], (List.append_nil _).symm, by simp⟩, fun p hp => Or.inl hp⟩
  | cons t ts ih =>
    intro st hst
    simp only [List.foldl_cons]
    have hcur : today ≤ (reschedStep settings busy today gen st t).cursor := by
      have h1 := placeLoop_cursor_mono settings busy t gen horizon_days
        ⟨st.cursor, t.minutes, st.planned, st.k, []⟩
      dsimp only at h1
      simp only [reschedStep]
      rw [processOverdueTask_fst_cursor]
      omega
    rcases ih (reschedStep settings busy today gen st t) hcur with
      ⟨hc, ⟨L2, hkeep, hL2⟩, hpieces⟩
    have hemit : ∀ p ∈ (processOverdueTask settings busy today gen t st.cursor
        st.planned st.k).1.emitted,
        p.done = false ∧ today ≤ p.day ∧
          weekday p.day ∉ settings.rest_days ∧ 0 < p.minutes ∧
          ∃ j : Nat, p.id = gen j := by
      intro p hp
      rw [processOverdueTask_fst_emitted] at hp
      rcases placeLoop_emitted settings busy t gen horizon_days
          ⟨st.cursor, t.minutes, st.planned, st.k, []⟩ p hp with h | h
      · simp at h
      · dsimp only at h
        exact ⟨h.1, by omega, h.2.2.1, h.2.2.2.1, h.2.2.2.2.1⟩
    refine ⟨hc, ?_, ?_⟩
    · refine ⟨((processOverdueTask settings busy today gen t st.cursor
        st.planned st.k).1.emitted ++
          (processOverdueTask settings busy today gen t st.cursor
            st.planned st.k).2.toList) ++ L2, ?_, ?_⟩
      · rw [hkeep]
        simp only [reschedStep]
        simp [List.append_assoc]
      · intro p hp
        rcases List.mem_append.mp hp with hp | hp
        · rcases List.mem_append.mp hp with hp | hp
          · have h := hemit p hp
            exact ⟨h.1, h.2.1, h.2.2.2.2⟩
          · exact processOverdueTask_overflow_mem settings busy today gen t
              st.cursor st.planned st.k p hp
        · exact hL2 p hp
    · intro p hp
      rcases hpieces p hp with h | h
      · simp only [reschedStep] at h
        rcases List.mem_append.mp h with h | h
        · exact Or.inl h
        · have h2 := hemit p h
          exact Or.inr ⟨h2.1, h2.2.1, h2.2.2.1, h2.2.2.2.1⟩
      · exact Or.inr h

/-- C8: every capacity-respecting (non-overflow) task emitted by
`reschedule_overdue` lands on a day at or after `today`, never on a rest
day, with positive minutes, and is undone. -/
theorem reschedule_pieces_day_valid (tasks : List Task) (settings : Settings)
    (today : Int) (events : List Event) (gen : Nat → String) (p : Task)
    (hp : p ∈ reschedulePieces tasks settings today events gen) :
    today ≤ p.day ∧ weekday p.day ∉ settings.rest_days ∧ 0 < p.minutes ∧
      p.done = false := by
  simp only [reschedulePieces, rescheduleFold] at hp
  have h := (reschedFold_inv settings
      (compute_busy_minutes_by_day events today horizon_days) today gen
      (tasks.filter (isOverdue today))
      ⟨today, plannedFromKeep (tasks.filter (fun t => !isOverdue today t)),
        0, tasks.filter (fun t => !isOverdue today t), []⟩
      (le_refl today)).2.2 p hp
  rcases h with h | h
  · simp at h
  · exact ⟨h.2.1, h.2.2.1, h.2.2.2, h.1⟩

theorem reschedule_pieces_day_valid_witness :
    (7 : Int) ≤ (⟨"x", "s1", "Math", 8, 40, false, "n"⟩ : Task).day ∧
      weekday (⟨"x", "s1", "Math", 8, 40, false, "n"⟩ : Task).day ∉
        (⟨75, [0], 25, 15, 18, 22⟩ : Settings).rest_days ∧
      0 < (⟨"x", "s1", "Math", 8, 40, false, "n"⟩ : Task).minutes ∧
      (⟨"x", "s1", "Math", 8, 40, false, "n"⟩ : Task).done = false :=
  reschedule_pieces_day_valid [⟨"t1", "s1", "Math", 4, 40, false, "n"⟩]
    ⟨75, [0], 25, 15, 18, 22⟩ 7 [] (fun _ => "x")
    ⟨"x", "s1", "Math", 8, 40, false, "n"⟩ (by decide)

theorem reschedule_minutes_conserved_witness :
    (0 : Int) ≤ (⟨"t1", "s1", "Math", 4, 40, false, "n"⟩ : Task).minutes ∧
      sumMinutes ((processOverdueTask ⟨75, [0], 25, 15, 18, 22⟩ (fun _ => 0) 7
          (fun _ => "x") ⟨"t1", "s1", "Math", 4, 40, false, "n"⟩ 7
          (fun _ => 0) 0).1.emitted ++
        (processOverdueTask ⟨75, [0], 25, 15, 18, 22⟩ (fun _ => 0) 7
          (fun _ => "x") ⟨"t1", "s1", "Math", 4, 40, false, "n"⟩ 7
          (fun _ => 0) 0).2.toList) = 40 :=
  ⟨by decide,
    reschedule_minutes_conserved ⟨75, [0], 25, 15, 18, 22⟩ (fun _ => 0) 7
      (fun _ => "x") ⟨"t1", "s1", "Math", 4, 40, false, "n"⟩ 7
      (fun _ => 0) 0 (by decide)⟩

/-- C10: the rescheduler's output contains no undone task dated before
`today` (so every undone past-due input task is gone, and every
rescheduled piece and overflow task is dated `today` or later), and —
whenever the id supply avoids every input id — each input task that is
done or not past-due is kept with its multiplicity, unmodified. -/
theorem reschedule_overdue_output_invariant (tasks : List Task)
    (settings : Settings) (today : Int) (events : List Event)
    (gen : Nat → String) :
    (∀ u ∈ reschedule_overdue tasks settings today events gen,
        u.done = false → today ≤ u.day) ∧
    (∀ u : Task, u.done = false → u.day < today →
        u ∉ reschedule_overdue tasks settings today events gen) ∧
    (∀ u ∈ tasks, (u.done = true ∨ today ≤ u.day) →
      (∀ (j : Nat) (v : Task), v ∈ tasks → gen j ≠ v.id) →
      (reschedule_overdue tasks settings today events gen).count u =
        tasks.count u) := by
  have hfold := reschedFold_inv settings
    (compute_busy_minutes_by_day events today horizon_days) today gen
    (tasks.filter (isOverdue today))
    ⟨today, plannedFromKeep (tasks.filter (fun t => !isOverdue today t)),
      0, tasks.filter (fun t => !isOverdue today t), []⟩
    (le_refl today)
  rcases hfold with ⟨-, ⟨L, hkeep, hL⟩, -⟩
  have hmain : ∀ u ∈ reschedule_overdue tasks settings today events gen,
      u.done = false → today ≤ u.day := by
    intro u hu hdone
    rw [reschedule_overdue, mem_sortStable] at hu
    simp only [rescheduleFold] at hu
    rw [hkeep] at hu
    rcases List.mem_append.mp hu with h | h
    · rcases List.mem_filter.mp h with ⟨-, hcond⟩
      simp only [isOverdue, hdone, Bool.not_false, Bool.true_and,
        Bool.not_eq_true', decide_eq_false_iff_not, not_lt] at hcond
      exact hcond
    · exact (hL u h).2.1
  refine ⟨hmain, ?_, ?_⟩
  · intro u hdone hday hu
    have := hmain u hu hdone
    omega
  · intro u hu hcond hfresh
    rw [reschedule_overdue, count_sortStable]
    simp only [rescheduleFold]
    rw [hkeep, List.count_append]
    have hL0 : L.count u = 0 := by
      rw [List.count_eq_zero]
      intro hmem
      rcases (hL u hmem).2.2 with ⟨j, hj⟩
      exact hfresh j u hu hj.symm
    have hkeep0 : (tasks.filter (fun t => !isOverdue today t)).count u =
        tasks.count u := by
      refine List.count_filter ?_
      simp only [isOverdue, Bool.not_eq_true, Bool.and_eq_false_imp,
        Bool.not_and, Bool.not_eq_true]
      rcases hcond with h | h
      · simp [h]
      · simp [decide_eq_false_iff_not, not_lt, h]
    rw [hL0, hkeep0, add_zero]

theorem reschedule_overdue_output_invariant_witness :
    ((⟨"x", "s1", "Math", 8, 40, false, "n"⟩ : Task).done = false →
      (7 : Int) ≤ (⟨"x", "s1", "Math", 8, 40, false, "n"⟩ : Task).day) ∧
    (reschedule_overdue
        [⟨"a", "s1", "Math", 3, 30, true, ""⟩, ⟨"t1", "s1", "Math", 4, 40, false, "n"⟩]
        ⟨75, [0], 25, 15, 18, 22⟩ 7 [] (fun _ => "x")).count
        ⟨"a", "s1", "Math", 3, 30, true, ""⟩ =
      ([⟨"a", "s1", "Math", 3, 30, true, ""⟩,
        ⟨"t1", "s1", "Math", 4, 40, false, "n"⟩] : List Task).count
        ⟨"a", "s1", "Math", 3, 30, true, ""⟩ :=
  ⟨(reschedule_overdue_output_invariant
      [⟨"a", "s1", "Math", 3, 30, true, ""⟩, ⟨"t1", "s1", "Math", 4, 40, false, "n"⟩]
      ⟨75, [0], 25, 15, 18, 22⟩ 7 [] (fun _ => "x")).1
      ⟨"x", "s1", "Math", 8, 40, false, "n"⟩ (by decide),
    (reschedule_overdue_output_invariant
      [⟨"a", "s1", "Math", 3, 30, true, ""⟩, ⟨"t1", "s1", "Math", 4, 40, false, "n"⟩]
      ⟨75, [0], 25, 15, 18, 22⟩ 7 [] (fun _ => "x")).2.2
      ⟨"a", "s1", "Math", 3, 30, true, ""⟩ (by decide) (Or.inl rfl)
      (by
        intro j v hv
        rcases List.mem_cons.mp hv with rfl | hv2
        · decide
        · rcases List.mem_singleton.mp hv2 with rfl
          decide)⟩

/-- C6: the per-day capacity function returns 0 on a rest day, otherwise
`max 0 (minutes_per_day - busy - buffer)` further reduced (clamped at 0) by
the optional planned minutes, and it is never negative — with no
non-negativity assumptions needed on the inputs. -/
theorem available_minutes_spec (d : Int) (settings : Settings)
    (busy_by_day : Int → Int) (planned_minutes : Option (Int → Int)) :
    _available_minutes_for_day d settings busy_by_day planned_minutes =
      (if weekday d ∈ settings.rest_days then 0
       else
        max 0 (max 0 (settings.minutes_per_day - busy_by_day d -
          settings.daily_buffer_minutes) -
            planned_minutes.elim 0 (fun m => m d))) ∧
    0 ≤ _available_minutes_for_day d settings busy_by_day planned_minutes := by
  constructor
  · cases planned_minutes <;> rfl
  · simp only [_available_minutes_for_day]
    split
    · exact le_refl 0
    · exact le_max_left 0 _

/-- C5: every entry of the risk list has strictly positive remaining
minutes (so a fully planned subject never appears), the list is sorted by
score in descending order, and it is truncated to at most `limit`
entries. -/
theorem build_risk_list_spec (subjects : List Subject) (tasks : List Task)
    (today : Int) (limit : Nat) :
    (∀ r ∈ build_risk_list subjects tasks today limit,
        0 < r.remaining_minutes) ∧
    (build_risk_list subjects tasks today limit).Pairwise
      (fun a b => b.score ≤ a.score) ∧
    (build_risk_list subjects tasks today limit).length ≤ limit := by
  refine ⟨?_, ?_, ?_⟩
  · intro r hr
    simp only [build_risk_list] at hr
    have hr2 := List.mem_of_mem_take hr
    rw [mem_sortStable] at hr2
    rcases List.mem_filterMap.mp hr2 with ⟨s, -, hsome⟩
    simp only [riskEntry] at hsome
    split at hsome
    · exact Option.noConfusion hsome
    · rename_i hcond
      have hinj := Option.some.inj hsome
      subst hinj
      push_neg at hcond
      dsimp only
      by_contra hle
      push_neg at hle
      have h0 : max 0 ((round (s.est_hours * 60) : Int) -
          plannedBySubject tasks s.id) = 0 :=
        le_antisymm hle (le_max_left _ _)
      rw [h0] at hcond
      simp at hcond
  · simp only [build_risk_list]
    have htot : ∀ a b : Risk, decide (b.score ≤ a.score) = true ∨
        decide (a.score ≤ b.score) = true := by
      intro a b
      rcases le_total b.score a.score with h | h
      · exact Or.inl (decide_eq_true h)
      · exact Or.inr (decide_eq_true h)
    have htrans : ∀ a b c : Risk, decide (b.score ≤ a.score) = true →
        decide (c.score ≤ b.score) = true →
        decide (c.score ≤ a.score) = true := by
      intro a b c hab hbc
      exact decide_eq_true
        (le_trans (of_decide_eq_true hbc) (of_decide_eq_true hab))
    have hp := pairwise_sortStable (fun a b : Risk => decide (b.score ≤ a.score))
      htot htrans (subjects.filterMap (riskEntry tasks today))
    refine List.Pairwise.sublist (List.take_sublist _ _) ?_
    exact hp.imp (fun h => of_decide_eq_true h)
  · simp only [build_risk_list]
    exact List.length_take_le _ _

theorem build_risk_list_spec_witness :
    0 < (⟨"Math", 1, 1, 60, 1, 60, 5, 300, "MED"⟩ : Risk).remaining_minutes :=
  (build_risk_list_spec [⟨"s1", "Math", 1, 5, 1, ""⟩] [] 0 5).1
    ⟨"Math", 1, 1, 60, 1, 60, 5, 300, "MED"⟩ (by with_unfolding_all decide)

/-! ### Determinism up to generated ids -/

theorem allocDayAux_strip (subjects : List Subject) (today chunk : Int)
    (d : Int) (g1 g2 : Nat → String) :
    ∀ (fuel : Nat) (cap : Int) (remaining : String → Int) (k : Nat),
      (allocDayAux subjects today chunk g1 d fuel cap remaining k).remaining =
        (allocDayAux subjects today chunk g2 d fuel cap remaining k).remaining ∧
      (allocDayAux subjects today chunk g1 d fuel cap remaining k).k =
        (allocDayAux subjects today chunk g2 d fuel cap remaining k).k ∧
      (allocDayAux subjects today chunk g1 d fuel cap remaining k).tasks.map stripId =
        (allocDayAux subjects today chunk g2 d fuel cap remaining k).tasks.map stripId := by
  intro fuel
  induction fuel with
  | zero => intro cap remaining k; exact ⟨rfl, rfl, rfl⟩
  | succ fuel ih =>
    intro cap remaining k
    simp only [allocDayAux]
    by_cases hcap : 10 ≤ cap
    · rw [if_pos hcap, if_pos hcap]
      rcases hsel : selectSubject subjects today remaining with _ | s
      · simp [hsel]
      · simp only [hsel]
        by_cases hg : min chunk (min cap (remaining s.id)) < 10
        · rw [if_pos hg, if_pos hg]
          exact ⟨rfl, rfl, rfl⟩
        · rw [if_neg hg, if_neg hg]
          obtain ⟨h1, h2, h3⟩ := ih (cap - min chunk (min cap (remaining s.id)))
            (updFn remaining s.id
              (remaining s.id - min chunk (min cap (remaining s.id)))) (k + 1)
          refine ⟨h1, h2, ?_⟩
          dsimp only
          simp only [List.map_cons, h3, stripId]
    · rw [if_neg hcap, if_neg hcap]
      exact ⟨rfl, rfl, rfl⟩

theorem weekFold_strip (subjects : List Subject) (settings : Settings)
    (today : Int) (day_capacity : Int → Int) (g1 g2 : Nat → String) :
    ∀ (days : List Int) (st1 st2 : AllocState),
      st1.remaining = st2.remaining → st1.k = st2.k →
      st1.tasks.map stripId = st2.tasks.map stripId →
      (days.foldl (weekStep subjects settings today g1 day_capacity) st1).remaining =
        (days.foldl (weekStep subjects settings today g2 day_capacity) st2).remaining ∧
      (days.foldl (weekStep subjects settings today g1 day_capacity) st1).k =
        (days.foldl (weekStep subjects settings today g2 day_capacity) st2).k ∧
      (days.foldl (weekStep subjects settings today g1 day_capacity) st1).tasks.map stripId =
        (days.foldl (weekStep subjects settings today g2 day_capacity) st2).tasks.map stripId := by
  intro days
  induction days with
  | nil => intro st1 st2 h1 h2 h3; exact ⟨h1, h2, h3⟩
  | cons dd rest ih =>
    intro st1 st2 h1 h2 h3
    simp only [List.foldl_cons]
    refine ih _ _ ?_ ?_ ?_ <;> simp only [weekStep] <;>
      by_cases hcap : day_capacity dd ≤ 0
    · rw [if_pos hcap, if_pos hcap]; exact h1
    · rw [if_neg hcap, if_neg hcap]
      dsimp only
      rw [h1, h2]
      exact (allocDayAux_strip subjects today (effectiveChunk settings) dd g1 g2
        _ _ _ _).1
    · rw [if_pos hcap, if_pos hcap]; exact h2
    · rw [if_neg hcap, if_neg hcap]
      dsimp only
      rw [h1, h2]
      exact (allocDayAux_strip subjects today (effectiveChunk settings) dd g1 g2
        _ _ _ _).2.1
    · rw [if_pos hcap, if_pos hcap]; exact h3
    · rw [if_neg hcap, if_neg hcap]
      dsimp only
      rw [List.map_append, List.map_append, h3, h1, h2]
      rw [(allocDayAux_strip subjects today (effectiveChunk settings) dd g1 g2
        _ _ _ _).2.2]

theorem generate_week_plan_strip (subjects : List Subject)
    (settings : Settings) (today : Int) (existing_tasks : List Task)
    (events : List Event) (g1 g2 : Nat → String) :
    (generate_week_plan subjects settings today existing_tasks events g1).map stripId =
      (generate_week_plan subjects settings today existing_tasks events g2).map stripId := by
  simp only [generate_week_plan, generateNewTasks, List.map_append]
  rw [(weekFold_strip subjects settings today _ g1 g2 (weekDays today)
    ⟨remainingInit subjects existing_tasks, 0, []⟩
    ⟨remainingInit subjects existing_tasks, 0, []⟩ rfl rfl rfl).2.2]

theorem placeLoop_strip (settings : Settings) (busy : Int → Int) (t : Task)
    (g1 g2 : Nat → String) :
    ∀ (fuel : Nat) (s1 s2 : PlaceState),
      s1.cursor = s2.cursor → s1.minutes_left = s2.minutes_left →
      s1.planned = s2.planned → s1.k = s2.k →
      s1.emitted.map stripId = s2.emitted.map stripId →
      (placeLoop settings busy t g1 fuel s1).cursor =
        (placeLoop settings busy t g2 fuel s2).cursor ∧
      (placeLoop settings busy t g1 fuel s1).minutes_left =
        (placeLoop settings busy t g2 fuel s2).minutes_left ∧
      (placeLoop settings busy t g1 fuel s1).planned =
        (placeLoop settings busy t g2 fuel s2).planned ∧
      (placeLoop settings busy t g1 fuel s1).k =
        (placeLoop settings busy t g2 fuel s2).k ∧
      (placeLoop settings busy t g1 fuel s1).emitted.map stripId =
        (placeLoop settings busy t g2 fuel s2).emitted.map stripId := by
  intro fuel
  induction fuel with
  | zero =>
    intro s1 s2 h1 h2 h3 h4 h5
    exact ⟨h1, h2, h3, h4, h5⟩
  | succ fuel ih =>
    intro s1 s2 h1 h2 h3 h4 h5
    rcases s1 with ⟨c1, m1, p1, k1, e1⟩
    rcases s2 with ⟨c2, m2, p2, k2, e2⟩
    dsimp only at h1 h2 h3 h4 h5
    subst h1 h2 h3 h4
    simp only [placeLoop]
    by_cases hm : m1 ≤ 0
    · rw [if_pos hm, if_pos hm]
      exact ⟨rfl, rfl, rfl, rfl, h5⟩
    · rw [if_neg hm, if_neg hm]
      by_cases hcap : _available_minutes_for_day c1 settings busy (some p1) ≤ 0
      · rw [if_pos hcap, if_pos hcap]
        exact ih _ _ rfl rfl rfl rfl h5
      · rw [if_neg hcap, if_neg hcap]
        refine ih _ _ rfl rfl rfl rfl ?_
        dsimp only
        simp only [List.map_append, h5, List.map_cons, List.map_nil, stripId]

theorem option_toList_strip (o1 o2 : Option Task)
    (h : o1.map stripId = o2.map stripId) :
    o1.toList.map stripId = o2.toList.map stripId := by
  cases o1 <;> cases o2 <;> simp_all

theorem processOverdueTask_fst_planned (settings : Settings)
    (busy : Int → Int) (today : Int) (gen : Nat → String) (t : Task)
    (cursor : Int) (planned : Int → Int) (k : Nat) :
    (processOverdueTask settings busy today gen t cursor planned k).1.planned =
      (placeLoop settings busy t gen horizon_days
        ⟨cursor, t.minutes, planned, k, []⟩).planned := by
  simp only [processOverdueTask]
  split <;> rfl

theorem processOverdueTask_fst_k (settings : Settings)
    (busy : Int → Int) (today : Int) (gen : Nat → String) (t : Task)
    (cursor : Int) (planned : Int → Int) (k : Nat) :
    (processOverdueTask settings busy today gen t cursor planned k).1.k =
      (if 0 < (placeLoop settings busy t gen horizon_days
          ⟨cursor, t.minutes, planned, k, []⟩).minutes_left then
        (placeLoop settings busy t gen horizon_days
          ⟨cursor, t.minutes, planned, k, []⟩).k + 1
       else
        (placeLoop settings busy t gen horizon_days
          ⟨cursor, t.minutes, planned, k, []⟩).k) := by
  simp only [processOverdueTask]
  split <;> rfl

theorem processOverdueTask_snd_eq (settings : Settings)
    (busy : Int → Int) (today : Int) (gen : Nat → String) (t : Task)
    (cursor : Int) (planned : Int → Int) (k : Nat) :
    (processOverdueTask settings busy today gen t cursor planned k).2 =
      (if 0 < (placeLoop settings busy t gen horizon_days
          ⟨cursor, t.minutes, planned, k, []⟩).minutes_left then
        some { id := gen (placeLoop settings busy t gen horizon_days
                  ⟨cursor, t.minutes, planned, k, []⟩).k,
               subject_id := t.subject_id, subject_name := t.subject_name,
               day := if today ≤ (placeLoop settings busy t gen horizon_days
                    ⟨cursor, t.minutes, planned, k, []⟩).cursor then
                  (placeLoop settings busy t gen horizon_days
                    ⟨cursor, t.minutes, planned, k, []⟩).cursor
                 else today,
               minutes := (placeLoop settings busy t gen horizon_days
                  ⟨cursor, t.minutes, planned, k, []⟩).minutes_left,
               done := false,
               notes := t.notes ++ " (overflow, please reschedule)" }
       else none) := by
  simp only [processOverdueTask]
  split <;> rfl

theorem processOverdueTask_strip (settings : Settings) (busy : Int → Int)
    (today : Int) (g1 g2 : Nat → String) (t : Task) (cursor : Int)
    (planned : Int → Int) (k : Nat) :
    (processOverdueTask settings busy today g1 t cursor planned k).1.cursor =
      (processOverdueTask settings busy today g2 t cursor planned k).1.cursor ∧
    (processOverdueTask settings busy today g1 t cursor planned k).1.planned =
      (processOverdueTask settings busy today g2 t cursor planned k).1.planned ∧
    (processOverdueTask settings busy today g1 t cursor planned k).1.k =
      (processOverdueTask settings busy today g2 t cursor planned k).1.k ∧
    (processOverdueTask settings busy today g1 t cursor planned k).1.emitted.map stripId =
      (processOverdueTask settings busy today g2 t cursor planned k).1.emitted.map stripId ∧
    (processOverdueTask settings busy today g1 t cursor planned k).2.map stripId =
      (processOverdueTask settings busy today g2 t cursor planned k).2.map stripId := by
  have hp := placeLoop_strip settings busy t g1 g2 horizon_days
    ⟨cursor, t.minutes, planned, k, []⟩ ⟨cursor, t.minutes, planned, k, []⟩
    rfl rfl rfl rfl rfl
  refine ⟨?_, ?_, ?_, ?_, ?_⟩
  · rw [processOverdueTask_fst_cursor, processOverdueTask_fst_cursor]
    exact hp.1
  · rw [processOverdueTask_fst_planned, processOverdueTask_fst_planned]
    exact hp.2.2.1
  · rw [processOverdueTask_fst_k, processOverdueTask_fst_k, hp.2.1, hp.2.2.2.1]
  · rw [processOverdueTask_fst_emitted, processOverdueTask_fst_emitted]
    exact hp.2.2.2.2
  · rw [processOverdueTask_snd_eq, processOverdueTask_snd_eq, hp.1, hp.2.1,
      hp.2.2.2.1]
    by_cases hml : 0 < (placeLoop settings busy t g2 horizon_days
        ⟨cursor, t.minutes, planned, k, []⟩).minutes_left
    · rw [if_pos hml, if_pos hml]
      rfl
    · rw [if_neg hml, if_neg hml]

theorem reschedFold_strip (settings : Settings) (busy : Int → Int)
    (today : Int) (g1 g2 : Nat → String) :
    ∀ (ts : List Task) (st1 st2 : ReschedState),
      st1.cursor = st2.cursor → st1.planned = st2.planned → st1.k = st2.k →
      st1.keep.map stripId = st2.keep.map stripId →
      st1.pieces.map stripId = st2.pieces.map stripId →
      (ts.foldl (reschedStep settings busy today g1) st1).keep.map stripId =
        (ts.foldl (reschedStep settings busy today g2) st2).keep.map stripId := by
  intro ts
  induction ts with
  | nil => intro st1 st2 _ _ _ h4 _; exact h4
  | cons t ts ih =>
    intro st1 st2 h1 h2 h3 h4 h5
    rcases st1 with ⟨c1, p1, k1, K1, P1⟩
    rcases st2 with ⟨c2, p2, k2, K2, P2⟩
    dsimp only at h1 h2 h3 h4 h5
    subst h1 h2 h3
    simp only [List.foldl_cons]
    have hq := processOverdueTask_strip settings busy today g1 g2 t c1 p1 k1
    refine ih _ _ ?_ ?_ ?_ ?_ ?_ <;> simp only [reschedStep]
    · exact hq.1
    · exact hq.2.1
    · exact hq.2.2.1
    · simp only [List.map_append, h4, hq.2.2.2.1,
        option_toList_strip _ _ hq.2.2.2.2]
    · simp only [List.map_append, h5, hq.2.2.2.1]

theorem reschedule_overdue_strip (tasks : List Task) (settings : Settings)
    (today : Int) (events : List Event) (g1 g2 : Nat → String) :
    (reschedule_overdue tasks settings today events g1).map stripId =
      (reschedule_overdue tasks settings today events g2).map stripId := by
  simp only [reschedule_overdue, rescheduleFold]
  rw [map_sortStable stripId taskOrderLE taskOrderLE (fun a b => rfl),
    map_sortStable stripId taskOrderLE taskOrderLE (fun a b => rfl)]
  exact congrArg (sortStable taskOrderLE)
    (reschedFold_strip settings (compute_busy_minutes_by_day events today horizon_days)
      today g1 g2 (tasks.filter (isOverdue today)) _ _ rfl rfl rfl rfl rfl)

/-- C3 amended: for fixed inputs, each core operation is deterministic up
to the freshly generated task ids — with the id supply (modelling `uuid4`)
made explicit, two runs agree on every field of every task except `id`;
`build_risk_list` and `compute_busy_minutes_by_day` draw no ids at all and
are fully deterministic. -/
theorem core_ops_deterministic_up_to_ids (subjects : List Subject)
    (settings : Settings) (today : Int) (existing_tasks tasks : List Task)
    (events : List Event) (g1 g2 : Nat → String) (limit num_days : Nat) :
    (generate_week_plan subjects settings today existing_tasks events g1).map stripId =
      (generate_week_plan subjects settings today existing_tasks events g2).map stripId ∧
    (reschedule_overdue tasks settings today events g1).map stripId =
      (reschedule_overdue tasks settings today events g2).map stripId ∧
    build_risk_list subjects tasks today limit =
      build_risk_list subjects tasks today limit ∧
    compute_busy_minutes_by_day events today num_days =
      compute_busy_minutes_by_day events today num_days :=
  ⟨generate_week_plan_strip subjects settings today existing_tasks events g1 g2,
    reschedule_overdue_strip tasks settings today events g1 g2, rfl, rfl⟩

/-- C3 counterexample: with the random `uuid4` draws modelled as the id
supply, two runs of `generate_week_plan` on identical planning inputs but
different draws produce outputs that are not identical (they differ in the
`id` fields of the newly created task). -/
theorem core_ops_not_identical_counterexample :
    generate_week_plan [⟨"s1", "Math", 1, 5, (1 : Rat)/4, ""⟩]
        ⟨15, [], 25, 0, 18, 22⟩ 0 [] [] (fun _ => "a") ≠
      generate_week_plan [⟨"s1", "Math", 1, 5, (1 : Rat)/4, ""⟩]
        ⟨15, [], 25, 0, 18, 22⟩ 0 [] [] (fun _ => "b") := by
  with_unfolding_all decide

/-- C7 amended: an event lying within one calendar day of the window
credits that day with its full floor-divided duration in minutes and every
other window day with 0; an event crossing midnight between two
consecutive window days whose start and end lie on whole-minute
boundaries (such as 23:00 to 01:00) has its minutes split between exactly
those two day buckets, summing to its total duration in minutes (120 for
that example).  Without the whole-minute condition the per-day floor
divisions can lose sub-minute remainders (see the counterexample). -/
theorem busy_bucket_spec :
    (∀ (ev : Event) (start_date d : Int) (num_days : Nat),
      ev.start < ev.end_ → d ∈ windowDates start_date num_days →
      dayStart d ≤ ev.start → ev.end_ ≤ dayStart d + 86400 →
      compute_busy_minutes_by_day [ev] start_date num_days d =
          (ev.end_ - ev.start) / 60 ∧
        ∀ x ∈ windowDates start_date num_days, x ≠ d →
          compute_busy_minutes_by_day [ev] start_date num_days x = 0) ∧
    (∀ (ev : Event) (start_date d : Int) (num_days : Nat),
      d ∈ windowDates start_date num_days →
      d + 1 ∈ windowDates start_date num_days →
      dayStart d ≤ ev.start → ev.start < dayStart (d + 1) →
      dayStart (d + 1) < ev.end_ → ev.end_ ≤ dayStart (d + 2) →
      (60 : Int) ∣ ev.start → (60 : Int) ∣ ev.end_ →
      compute_busy_minutes_by_day [ev] start_date num_days d +
          compute_busy_minutes_by_day [ev] start_date num_days (d + 1) =
          (ev.end_ - ev.start) / 60 ∧
        ∀ x ∈ windowDates start_date num_days, x ≠ d → x ≠ d + 1 →
          compute_busy_minutes_by_day [ev] start_date num_days x = 0) :=
  ⟨fun ev s d n h1 h2 h3 h4 => busy_within_day ev s n d h1 h2 h3 h4,
   fun ev s d n h1 h2 h3 h4 h5 h6 h7 h8 =>
     busy_midnight_cross ev s n d h1 h2 h3 h4 h5 h6 h7 h8⟩

theorem busy_bucket_spec_witness :
    (compute_busy_minutes_by_day [⟨"e1", "t1", 176400, 180000⟩] 0 7 2 =
        ((⟨"e1", "t1", 176400, 180000⟩ : Event).end_ -
          (⟨"e1", "t1", 176400, 180000⟩ : Event).start) / 60 ∧
      ∀ x ∈ windowDates 0 7, x ≠ 2 →
        compute_busy_minutes_by_day [⟨"e1", "t1", 176400, 180000⟩] 0 7 x = 0) ∧
    (compute_busy_minutes_by_day [⟨"e2", "t2", 82800, 90000⟩] 0 7 0 +
        compute_busy_minutes_by_day [⟨"e2", "t2", 82800, 90000⟩] 0 7 1 =
        ((⟨"e2", "t2", 82800, 90000⟩ : Event).end_ -
          (⟨"e2", "t2", 82800, 90000⟩ : Event).start) / 60 ∧
      ∀ x ∈ windowDates 0 7, x ≠ 0 → x ≠ 1 →
        compute_busy_minutes_by_day [⟨"e2", "t2", 82800, 90000⟩] 0 7 x = 0) :=
  ⟨busy_bucket_spec.1 ⟨"e1", "t1", 176400, 180000⟩ 0 2 7 (by decide)
      (by decide) (by decide) (by decide),
   busy_bucket_spec.2 ⟨"e2", "t2", 82800, 90000⟩ 0 0 7 (by decide)
      (by decide) (by decide) (by decide) (by decide) (by decide)
      ⟨1380, by norm_num⟩ ⟨1500, by norm_num⟩⟩

/-- C7 counterexample: the event from `23:59:30` on day 0 to `00:00:30` on
day 1 crosses midnight inside the window, yet the two day buckets (each a
separate floor division) sum to 0 while the event's total duration in
minutes is 1 — so the unrestricted "bucket minutes sum to the event's
total duration" reading of the claim is false. -/
theorem busy_midnight_subminute_counterexample :
    (⟨"e", "x", 86370, 86430⟩ : Event).start < dayStart 1 ∧
    dayStart 1 < (⟨"e", "x", 86370, 86430⟩ : Event).end_ ∧
    compute_busy_minutes_by_day [⟨"e", "x", 86370, 86430⟩] 0 7 0 +
        compute_busy_minutes_by_day [⟨"e", "x", 86370, 86430⟩] 0 7 1 ≠
      ((⟨"e", "x", 86370, 86430⟩ : Event).end_ -
        (⟨"e", "x", 86370, 86430⟩ : Event).start) / 60 := by
  refine ⟨by decide, by decide, ?_⟩
  decide

theorem generate_week_plan_chunk_bounds_witness :
    10 ≤ (⟨"a", "s1", "Math", 0, 25, false, ""⟩ : Task).minutes ∧
      (⟨"a", "s1", "Math", 0, 25, false, ""⟩ : Task).minutes ≤
        effectiveChunk ⟨60, [], 25, 0, 18, 22⟩ :=
  generate_week_plan_chunk_bounds [⟨"s1", "Math", 1, 5, 1, ""⟩]
    ⟨60, [], 25, 0, 18, 22⟩ 0 [] [] (fun _ => "a")
    ⟨"a", "s1", "Math", 0, 25, false, ""⟩ (by with_unfolding_all decide)

end Planner
